import Mathlib

/-!
Verification development for the retail-promotions → Shopify-metafields
synchronizer.  The definitions below are shallow embeddings of the two Python
source files:

* `retail_promotions_to_shopify_metafields.py` — the production script
  (date normalization on fetched rows, per-row display-window computation,
  per-vendor aggregation, and the sync driver's write/delete decisions);
* `Shopify_Add_Banner_Test.py` — the test script (its `parse_mm_dd`
  date normalizer).

Calendar dates in the window/aggregation pipeline are represented as day
numbers (`Int`): Python `date` arithmetic `d - timedelta(days=x)` becomes
`d - x` and date comparison becomes integer comparison, which is faithful
because `datetime.date` is totally ordered and day-shifting is translation.
The ingestion/date-parsing layer, whose claims are about calendar validity
and ISO serialization, uses an explicit `CalDate` (year, month, day) record.

Python strings are modelled as `List Char` wherever we must reason about
`str.strip` / `str.split` / `int(...)` internals; `String` values are used
for opaque keys (vendor names, metafield keys).
-/

namespace Retail

/-! ## Python string primitives (over `List Char`) -/

/-- Whitespace characters recognized by Python's `str.strip()` / `str.split()`
(ASCII subset; exotic Unicode whitespace is not modelled). -/
def pyIsSpace (c : Char) : Bool :=
  c == ' ' || c == '\t' || c == '\n' || c == '\r' || c == '\x0b' || c == '\x0c'

/-- Drop leading whitespace. -/
def stripLeft (cs : List Char) : List Char := cs.dropWhile pyIsSpace

/-- Python `s.strip()`: drop leading and trailing whitespace. -/
def pyStrip (cs : List Char) : List Char :=
  (stripLeft ((stripLeft cs).reverse)).reverse

/-- Python `s.strip()` on `String` values. -/
def pyStripStr (s : String) : String := ⟨pyStrip s.data⟩

/-- Python `s.split(sep)` for a one-character separator: split on every
occurrence, keeping empty pieces.  Always returns a nonempty list. -/
def splitChar (sep : Char) : List Char → List (List Char)
  | [] => [[]]
  | c :: rest =>
    match splitChar sep rest with
    | [] => [[c]]
    | p :: ps => if c == sep then [] :: p :: ps else (c :: p) :: ps

/-- Split on a character predicate (used to model argument-less `s.split()`
before empty pieces are discarded). -/
def splitPred (p : Char → Bool) : List Char → List (List Char)
  | [] => [[]]
  | c :: rest =>
    match splitPred p rest with
    | [] => [[c]]
    | q :: qs => if p c then [] :: q :: qs else (c :: q) :: qs

/-- Python `s.split()` (no argument): split on whitespace runs, dropping
empty pieces. -/
def pyWords (cs : List Char) : List (List Char) :=
  (splitPred pyIsSpace cs).filter (fun w => w ≠ [])

/-- `normalize` from `retail_promotions_to_shopify_metafields.py` line 81:
`" ".join((s or "").strip().lower().split())` — strip, lowercase, collapse
internal whitespace runs to single spaces. -/
def normalize (s : String) : String :=
  ⟨List.intercalate [' '] (pyWords ((pyStrip s.data).map Char.toLower))⟩

/-! ## Data model (production script, lines 109–132) -/

/-- A day number standing for a Python `datetime.date`. -/
abbrev Day := Int

/-- `RetailPromoRow` (lines 109–115). -/
structure RetailPromoRow where
  id : Int
  vendor : String
  entry_type : String
  start_date : Day
  end_date : Option Day
deriving DecidableEq, Repr

/-- `VendorPlan` (lines 118–132); every optional field defaults to `None`. -/
@[ext] structure VendorPlan where
  vendor : String
  sale_display_start : Option Day := none
  sale_display_end : Option Day := none
  pi_display_start : Option Day := none
  pi_display_end : Option Day := none
  sale_real_start : Option Day := none
  sale_real_end : Option Day := none
  pi_real_start : Option Day := none
  pi_real_end : Option Day := none
deriving DecidableEq, Repr

/-- `VendorPlan(vendor=v)`: the freshly constructed plan with all date fields
absent. -/
def emptyPlan (v : String) : VendorPlan := { vendor := v }

/-! ## Window Calculator (lines 240–252) -/

/-- `compute_display_window`: per-row display window.  `row.end_date or
row.start_date` is Python truthiness on an `Optional[date]`; a `date` object
is always truthy, so it is exactly `Option.getD`. -/
def compute_display_window (row : RetailPromoRow) (x y z : Int) : Day × Day :=
  let t := normalize row.entry_type
  if t = "sale" then
    (row.start_date - x, row.end_date.getD row.start_date)
  else if t = "price increase" then
    (row.start_date - y,
      match row.end_date with
      | some e => e
      | none => row.start_date + z)
  else
    (row.start_date, row.start_date)

/-! ## Vendor Aggregator (lines 255–286) -/

/-- `d if field is None else min(field, d)` — the display/real-start merge
pattern of lines 266, 269, 274, 277. -/
def mergeMin (o : Option Day) (d : Day) : Option Day :=
  match o with
  | none => some d
  | some a => some (min a d)

/-- `d if field is None else max(field, d)` — the display/real-end merge
pattern of lines 267, 271, 275. -/
def mergeMax (o : Option Day) (d : Day) : Option Day :=
  match o with
  | none => some d
  | some a => some (max a d)

/-- Lines 281–282: `if r.end_date is not None: w.pi_real_end = r.end_date if
w.pi_real_end is None else max(w.pi_real_end, r.end_date)`; when the row has
no end date the field is left untouched. -/
def mergeEndOpt (o : Option Day) : Option Day → Option Day
  | some e => mergeMax o e
  | none => o

/-- The body of the `for r in rows` loop of `aggregate_by_vendor`
(lines 261–283) applied to one already-fetched plan `w`. -/
def applyRow (w : VendorPlan) (r : RetailPromoRow) (x y z : Int) : VendorPlan :=
  let t := normalize r.entry_type
  let dw := compute_display_window r x y z
  if t = "sale" then
    { w with
      sale_display_start := mergeMin w.sale_display_start dw.1
      sale_display_end := mergeMax w.sale_display_end dw.2
      sale_real_start := mergeMin w.sale_real_start r.start_date
      sale_real_end := mergeMax w.sale_real_end (r.end_date.getD r.start_date) }
  else if t = "price increase" then
    { w with
      pi_display_start := mergeMin w.pi_display_start dw.1
      pi_display_end := mergeMax w.pi_display_end dw.2
      pi_real_start := mergeMin w.pi_real_start r.start_date
      pi_real_end := mergeEndOpt w.pi_real_end r.end_date }
  else w

/-- `foldl` form of `applyRow` used by the aggregation lemmas. -/
def stepRow (x y z : Int) (w : VendorPlan) (r : RetailPromoRow) : VendorPlan :=
  applyRow w r x y z

/-- One iteration of the `aggregate_by_vendor` loop acting on the whole
`by_vendor` dict, modelled as a lookup function: `w = by_vendor.get(v) or
VendorPlan(vendor=v)`, mutate via `applyRow`, store back at key `r.vendor`.
(`or` is Python truthiness; a dataclass instance is always truthy, so the
fetch is exactly `Option.getD`.) -/
def aggStep (x y z : Int) (m : String → Option VendorPlan) (r : RetailPromoRow) :
    String → Option VendorPlan :=
  fun v =>
    if v = r.vendor then
      some (applyRow ((m r.vendor).getD (emptyPlan r.vendor)) r x y z)
    else m v

/-- The `by_vendor` dict at the end of `aggregate_by_vendor`'s loop, as a
lookup function from vendor name to accumulated plan. -/
def aggregateMap (rows : List RetailPromoRow) (x y z : Int) :
    String → Option VendorPlan :=
  rows.foldl (aggStep x y z) (fun _ => none)

/-- Insertion order of the `by_vendor` dict keys: first occurrence of each
vendor string in the row list. -/
def vendorOrder (rows : List RetailPromoRow) : List String :=
  rows.foldl (fun acc r => if r.vendor ∈ acc then acc else acc ++ [r.vendor]) []

/-- `aggregate_by_vendor` (lines 255–286): `list(by_vendor.values())` in dict
insertion order. -/
def aggregate_by_vendor (rows : List RetailPromoRow) (x y z : Int) :
    List VendorPlan :=
  (vendorOrder rows).filterMap (aggregateMap rows x y z)

/-! ## Sync Driver decision logic (`main`, lines 523–598) -/

def MF_NAMESPACE : String := "custom"
def MF_SALE_START : String := "promo_sale_start_date"
def MF_SALE_END : String := "promo_sale_end_date"
def MF_PI_START : String := "promo_pi_start_date"
def MF_PI_END : String := "promo_pi_end_date"

/-- `sale_should_exist` (lines 523–526). -/
def sale_should_exist (w : VendorPlan) (today : Day) : Bool :=
  match w.sale_display_start, w.sale_display_end with
  | some a, some b => decide (a ≤ today ∧ today ≤ b)
  | _, _ => false

/-- `pi_should_exist` (lines 527–530). -/
def pi_should_exist (w : VendorPlan) (today : Day) : Bool :=
  match w.pi_display_start, w.pi_display_end with
  | some a, some b => decide (a ≤ today ∧ today ≤ b)
  | _, _ => false

/-- One entry of a `metafieldsSet` payload (`build_date_metafield`,
lines 452–459).  The source serializes `value` with `d.isoformat()`, which is
injective on dates; the model keeps the date itself. -/
structure Metafield where
  ownerId : String
  namespace_ : String
  key : String
  type_ : String
  value : Day
deriving DecidableEq, Repr

def build_date_metafield (owner_id ns key : String) (d : Day) : Metafield :=
  { ownerId := owner_id, namespace_ := ns, key := key, type_ := "date", value := d }

/-- The sale entries of the per-product `payload` (lines 559–561): real sale
dates, appended only when the sale window contains today and both real dates
are present (a Python `date` is always truthy, so the `and` chain tests
presence). -/
def sale_payload (w : VendorPlan) (today : Day) (pid : String) : List Metafield :=
  match sale_should_exist w today, w.sale_real_start, w.sale_real_end with
  | true, some rs, some re =>
    [build_date_metafield pid MF_NAMESPACE MF_SALE_START rs,
     build_date_metafield pid MF_NAMESPACE MF_SALE_END re]
  | _, _, _ => []

/-- The price-increase entries of the per-product `payload` (lines 564–568):
the real PI start whenever the PI window contains today and the real start is
present, and the real PI end only when the source end exists. -/
def pi_payload (w : VendorPlan) (today : Day) (pid : String) : List Metafield :=
  match pi_should_exist w today, w.pi_real_start with
  | true, some ps =>
    build_date_metafield pid MF_NAMESPACE MF_PI_START ps ::
      (match w.pi_real_end with
       | some pe => [build_date_metafield pid MF_NAMESPACE MF_PI_END pe]
       | none => [])
  | _, _ => []

/-- The full `payload` list built for one product (lines 556–568): sale
entries first, then price-increase entries. -/
def product_payload (w : VendorPlan) (today : Day) (pid : String) : List Metafield :=
  sale_payload w today pid ++ pi_payload w today pid

/-- The `keys_to_delete` list (lines 570–574): both keys of a promotion type
are marked whenever its window does not contain today; the computation never
consults the target's current state. -/
def keys_to_delete (w : VendorPlan) (today : Day) : List String :=
  (if sale_should_exist w today then [] else [MF_SALE_START, MF_SALE_END]) ++
  (if pi_should_exist w today then [] else [MF_PI_START, MF_PI_END])

/-- The deletion loop (lines 591–596): for each marked key, look up the
metafield id; delete only when an id exists.  Returns the ids actually
deleted; a key with no existing metafield contributes nothing. -/
def performDeletes (idMap : String → Option String) : List String → List String
  | [] => []
  | k :: ks =>
    match idMap k with
    | some mid => mid :: performDeletes idMap ks
    | none => performDeletes idMap ks
/-! ## Calendar dates and the date-parsing layer -/

/-- A calendar date, as `datetime.date(year, month, day)` holds it. -/
structure CalDate where
  year : Int
  month : Int
  day : Int
deriving DecidableEq, Repr

/-- Gregorian leap-year rule used by `datetime`. -/
def isLeap (y : Int) : Bool := (y % 4 == 0 && y % 100 != 0) || y % 400 == 0

def days_in_month (y m : Int) : Int :=
  if m = 2 then (if isLeap y then 29 else 28)
  else if m = 4 ∨ m = 6 ∨ m = 9 ∨ m = 11 then 30
  else 31

/-- `datetime.date(y, m, d)`: `some` on a valid calendar date (`datetime`
accepts years 1–9999), `none` where the constructor raises `ValueError`. -/
def mkDate? (y m d : Int) : Option CalDate :=
  if 1 ≤ y ∧ y ≤ 9999 ∧ 1 ≤ m ∧ m ≤ 12 ∧ 1 ≤ d ∧ d ≤ days_in_month y m then
    some ⟨y, m, d⟩
  else none

/-- Accumulating decimal parse; `none` unless every character is a digit. -/
def digitsToNat (acc : Nat) : List Char → Option Nat
  | [] => some acc
  | c :: rest => if c.isDigit then digitsToNat (acc * 10 + (c.toNat - 48)) rest else none

/-- Python `int(s)` on a string: optional surrounding whitespace, optional
sign, then at least one decimal digit (`none` where `int` raises
`ValueError`; PEP-515 underscore separators are not modelled). -/
def pyInt? (cs : List Char) : Option Int :=
  match pyStrip cs with
  | '-' :: rest => if rest = [] then none else (digitsToNat 0 rest).map (fun n => -Int.ofNat n)
  | '+' :: rest => if rest = [] then none else (digitsToNat 0 rest).map Int.ofNat
  | t => if t = [] then none else (digitsToNat 0 t).map Int.ofNat

/-- Decimal digits of a nonnegative number, via `Nat.repr`. -/
def natChars (n : Nat) : List Char := (Nat.repr n).data

/-- Left-pad with `'0'` to a given width. -/
def padZero (width : Nat) (cs : List Char) : List Char :=
  List.replicate (width - cs.length) '0' ++ cs

/-- `date.isoformat()`: `YYYY-MM-DD`, zero-padded. -/
def isoChars (dt : CalDate) : List Char :=
  padZero 4 (natChars dt.year.toNat) ++ '-' :: padZero 2 (natChars dt.month.toNat) ++
    '-' :: padZero 2 (natChars dt.day.toNat)

/-! ### `parse_mm_dd` (`Shopify_Add_Banner_Test.py`, lines 47–73) -/

/-- The pass-through check of line 61: `len(s) == 10 and s[4] == "-" and
s[7] == "-"` (no digit validation). -/
def shape10 (cs : List Char) : Bool :=
  cs.length == 10 && cs[4]? == some '-' && cs[7]? == some '-'

/-- `int(parts[0])`, `int(parts[1])`, `date(year, m, d)` of lines 69–71;
`none` where any of them raises `ValueError`. -/
def parseDatePair (year : Int) (p0 p1 : List Char) : Option CalDate := do
  let m ← pyInt? p0
  let d ← pyInt? p1
  mkDate? year m d

/-- The `for sep in [".", "/", "-"]` loop of lines 65–71: at the first
present separator whose split has exactly two parts, convert and return
(conversion errors propagate out of the loop); otherwise keep trying;
falling off the loop raises. -/
def trySeps (year : Int) (s : List Char) : List Char → Option (List Char)
  | [] => none
  | sep :: rest =>
    if sep ∈ s then
      match splitChar sep s with
      | [p0, p1] => (parseDatePair year p0 p1).map isoChars
      | _ => trySeps year s rest
    else trySeps year s rest

/-- `parse_mm_dd` (lines 47–73).  The model takes the effective year (the
source resolves `default_year or datetime.now().year`; the wall-clock
fallback is outside the model) and returns `none` where the source raises
`ValueError`. -/
def parse_mm_dd (s0 : List Char) (year : Int) : Option (List Char) :=
  let s := pyStrip s0
  if s = [] then none
  else if shape10 s then some s
  else trySeps year s ['.', '/', '-']

/-- The claim's reading of "the 10-character ISO calendar pattern": exactly
ten characters shaped `YYYY-MM-DD` with decimal digits in the date
positions.  (Stated from the spec's words, for comparison with the source's
`shape10` check, which validates only length and hyphen positions.) -/
def claimIsoCalendarPattern (cs : List Char) : Bool :=
  match cs with
  | [y1, y2, y3, y4, h1, m1, m2, h2, d1, d2] =>
    y1.isDigit && y2.isDigit && y3.isDigit && y4.isDigit && h1 == '-' &&
      m1.isDigit && m2.isDigit && h2 == '-' && d1.isDigit && d2.isDigit
  | _ => false

/-- The `month.day` shorthand input for a pair of numbers. -/
def mdInput (m d : Int) : List Char := (Int.repr m).data ++ '.' :: (Int.repr d).data

/-- The first of the separators `.`, `/`, `-` occurring in a string. -/
def firstPresentSep (t : List Char) : Option Char :=
  List.find? (fun c => decide (c ∈ t)) ['.', '/', '-']

/-- The malformed-date condition of the (amended) claim: after stripping,
the input is empty, or it is not of the pass-through shape (length 10 with
hyphens at positions 4 and 7) and either no separator occurs, or splitting
on the first present separator yields a number of parts other than two, or
the two parts do not convert to a valid calendar date for the given year. -/
def malformedCond (s0 : List Char) (year : Int) : Prop :=
  pyStrip s0 = [] ∨ (shape10 (pyStrip s0) = false ∧
    match firstPresentSep (pyStrip s0) with
    | none => True
    | some c =>
      match splitChar c (pyStrip s0) with
      | [p0, p1] => parseDatePair year p0 p1 = none
      | _ => True)

/-! ### `to_date_only` and row ingestion (production script, lines 85–103,
217–234) -/

/-- A numeric field of bounded width and value, shared by the `strptime`
format models; `strptime` accepts non-zero-padded fields. -/
def fieldVal? (maxLen bound : Nat) (cs : List Char) : Option Nat :=
  if cs ≠ [] ∧ cs.length ≤ maxLen ∧ cs.all Char.isDigit then
    (digitsToNat 0 cs).bind (fun n => if n ≤ bound then some n else none)
  else none

/-- `strptime(s, "%Y-%m-%d")`: split on `-` into year (up to 4 digits),
month and day (up to 2 digits each), then `date(...)` validity. -/
def parseIsoDate (cs : List Char) : Option CalDate :=
  match splitChar '-' cs with
  | [ys, ms, ds] => do
    let yv ← fieldVal? 4 9999 ys
    let mv ← fieldVal? 2 99 ms
    let dv ← fieldVal? 2 99 ds
    mkDate? yv mv dv
  | _ => none

/-- `%H:%M:%S` (hours 0–23, minutes 0–59, seconds 0–61). -/
def validHMS (cs : List Char) : Bool :=
  match splitChar ':' cs with
  | [hs, ms, ss] =>
    (fieldVal? 2 23 hs).isSome && (fieldVal? 2 59 ms).isSome && (fieldVal? 2 61 ss).isSome
  | _ => false

/-- `%H:%M:%S.%f`: a time then a dot and 1–6 fractional digits. -/
def validHMSF (cs : List Char) : Bool :=
  match splitChar '.' cs with
  | [t, f] => validHMS t && decide (f ≠ []) && decide (f.length ≤ 6) && f.all Char.isDigit
  | _ => false

/-- `strptime(s, "%Y-%m-%d %H:%M:%S")`. -/
def parseDateTime (cs : List Char) : Option CalDate :=
  match splitChar ' ' cs with
  | [d, t] => if validHMS t then parseIsoDate d else none
  | _ => none

/-- `strptime(s, "%Y-%m-%d %H:%M:%S.%f")`. -/
def parseDateTimeFrac (cs : List Char) : Option CalDate :=
  match splitChar ' ' cs with
  | [d, t] => if validHMSF t then parseIsoDate d else none
  | _ => none

/-- A zero-padded `YYYY-MM-DD`, the date part of `fromisoformat`'s strict
grammar. -/
def strictIso10 (cs : List Char) : Option CalDate :=
  match cs with
  | [y1, y2, y3, y4, h1, m1, m2, h2, d1, d2] =>
    if h1 = '-' ∧ h2 = '-' ∧ ([y1, y2, y3, y4, m1, m2, d1, d2].all Char.isDigit) then do
      let yv ← digitsToNat 0 [y1, y2, y3, y4]
      let mv ← digitsToNat 0 [m1, m2]
      let dv ← digitsToNat 0 [d1, d2]
      mkDate? yv mv dv
    else none
  | _ => none

/-- A two-digit zero-padded field with an upper bound. -/
def fieldExact2? (bound : Nat) (cs : List Char) : Option Nat :=
  if cs.length = 2 ∧ cs.all Char.isDigit then
    (digitsToNat 0 cs).bind (fun n => if n ≤ bound then some n else none)
  else none

/-- The time part of `fromisoformat`'s strict grammar:
`HH[:MM[:SS[.fff or .ffffff]]]`, zero-padded. -/
def validIsoTime (cs : List Char) : Bool :=
  match splitChar ':' cs with
  | [hs] => (fieldExact2? 23 hs).isSome
  | [hs, ms] => (fieldExact2? 23 hs).isSome && (fieldExact2? 59 ms).isSome
  | [hs, ms, ss] =>
    (fieldExact2? 23 hs).isSome && (fieldExact2? 59 ms).isSome &&
      (match splitChar '.' ss with
       | [s2] => (fieldExact2? 59 s2).isSome
       | [s2, f] =>
         (fieldExact2? 59 s2).isSome && (f.length == 3 || f.length == 6) &&
           f.all Char.isDigit
       | _ => false)
  | _ => false

/-- `datetime.fromisoformat` as called on line 100 (strict pre-3.11 grammar:
the 10-character date, optionally a one-character separator and a time). -/
def fromisoformat? (cs : List Char) : Option CalDate :=
  match strictIso10 (cs.take 10) with
  | none => none
  | some dt =>
    match cs.drop 10 with
    | [] => some dt
    | _sep :: timecs => if validIsoTime timecs then some dt else none

/-- A value as delivered by the database driver in a date column. -/
inductive PyDateVal where
  | vdatetime (d : CalDate)
  | vdate (d : CalDate)
  | vstr (s : List Char)
  | vother
deriving DecidableEq, Repr

/-- `to_date_only` (lines 85–103).  `datetime` values carry their calendar
date (`.date()` drops the time of day, which the model omits); strings are
stripped and tried against `%Y-%m-%d`, `%Y-%m-%d %H:%M:%S`,
`%Y-%m-%d %H:%M:%S.%f`, then `fromisoformat` after removing every `"Z"`;
every failure path returns `None` — the function never raises. -/
def to_date_only : Option PyDateVal → Option CalDate
  | none => none
  | some (.vdatetime d) => some d
  | some (.vdate d) => some d
  | some (.vstr s0) =>
    let s := pyStrip s0
    match parseIsoDate s with
    | some d => some d
    | none =>
      match parseDateTime s with
      | some d => some d
      | none =>
        match parseDateTimeFrac s with
        | some d => some d
        | none => fromisoformat? (s.filter (fun c => c ≠ 'Z'))
  | some .vother => none

/-- One raw result row of `fetch_active_today`'s query (lines 214–222). -/
structure RawRow where
  ID : Int
  Vendor : Option String
  EntryType : Option String
  Date_of_Start : Option PyDateVal
  Date_of_End : Option PyDateVal
deriving DecidableEq, Repr

/-- A parsed promotion row at the ingestion layer (the shape of
`RetailPromoRow`, with the calendar-date representation). -/
structure FetchRow where
  id : Int
  vendor : String
  entry_type : String
  start_date : CalDate
  end_date : Option CalDate
deriving DecidableEq, Repr

/-- The row post-processing loop of `fetch_active_today` (lines 217–234):
strip vendor and entry type, parse both dates, and silently skip the row
(`continue`) when the vendor or entry type is empty or the start date did
not parse; an unparsed end date is kept as `None`. -/
def fetch_postprocess : List RawRow → List FetchRow
  | [] => []
  | r :: rest =>
    let vendor := pyStripStr (r.Vendor.getD "")
    let entry_type := pyStripStr (r.EntryType.getD "")
    match to_date_only r.Date_of_Start with
    | none => fetch_postprocess rest
    | some sd =>
      if vendor = "" ∨ entry_type = "" then fetch_postprocess rest
      else ⟨r.ID, vendor, entry_type, sd, to_date_only r.Date_of_End⟩ :: fetch_postprocess rest

/-! ## Aggregation lemmas -/

theorem mergeMin_right_comm (o : Option Day) (a b : Day) :
    mergeMin (mergeMin o a) b = mergeMin (mergeMin o b) a := by
  cases o <;> simp [mergeMin, min_comm, min_left_comm]

theorem mergeMax_right_comm (o : Option Day) (a b : Day) :
    mergeMax (mergeMax o a) b = mergeMax (mergeMax o b) a := by
  cases o <;> simp [mergeMax, max_comm, max_left_comm]

theorem mergeEndOpt_right_comm (o : Option Day) (e1 e2 : Option Day) :
    mergeEndOpt (mergeEndOpt o e1) e2 = mergeEndOpt (mergeEndOpt o e2) e1 := by
  cases e1 <;> cases e2 <;> simp [mergeEndOpt, mergeMax_right_comm]

theorem sale_ne_pi : ("sale" : String) ≠ "price increase" := by decide

theorem applyRow_sale {r : RetailPromoRow} (h : normalize r.entry_type = "sale")
    (w : VendorPlan) (x y z : Int) :
    applyRow w r x y z =
      { w with
        sale_display_start := mergeMin w.sale_display_start (compute_display_window r x y z).1
        sale_display_end := mergeMax w.sale_display_end (compute_display_window r x y z).2
        sale_real_start := mergeMin w.sale_real_start r.start_date
        sale_real_end := mergeMax w.sale_real_end (r.end_date.getD r.start_date) } := by
  simp [applyRow, h]

theorem applyRow_pi {r : RetailPromoRow} (h : normalize r.entry_type = "price increase")
    (w : VendorPlan) (x y z : Int) :
    applyRow w r x y z =
      { w with
        pi_display_start := mergeMin w.pi_display_start (compute_display_window r x y z).1
        pi_display_end := mergeMax w.pi_display_end (compute_display_window r x y z).2
        pi_real_start := mergeMin w.pi_real_start r.start_date
        pi_real_end := mergeEndOpt w.pi_real_end r.end_date } := by
  have hns : normalize r.entry_type ≠ "sale" := by rw [h]; exact sale_ne_pi.symm
  simp [applyRow, h, hns]

theorem applyRow_other {r : RetailPromoRow} (h1 : normalize r.entry_type ≠ "sale")
    (h2 : normalize r.entry_type ≠ "price increase") (w : VendorPlan) (x y z : Int) :
    applyRow w r x y z = w := by
  simp [applyRow, h1, h2]

theorem entry_trichotomy (r : RetailPromoRow) :
    normalize r.entry_type = "sale" ∨ normalize r.entry_type = "price increase" ∨
      (normalize r.entry_type ≠ "sale" ∧ normalize r.entry_type ≠ "price increase") := by
  by_cases h1 : normalize r.entry_type = "sale"
  · exact Or.inl h1
  · by_cases h2 : normalize r.entry_type = "price increase"
    · exact Or.inr (Or.inl h2)
    · exact Or.inr (Or.inr ⟨h1, h2⟩)

theorem applyRow_comm (w : VendorPlan) (r1 r2 : RetailPromoRow) (x y z : Int) :
    applyRow (applyRow w r1 x y z) r2 x y z = applyRow (applyRow w r2 x y z) r1 x y z := by
  rcases entry_trichotomy r1 with h1 | h1 | ⟨h1a, h1b⟩ <;>
    rcases entry_trichotomy r2 with h2 | h2 | ⟨h2a, h2b⟩
  · rw [applyRow_sale h1, applyRow_sale h2, applyRow_sale h2, applyRow_sale h1]
    simp [mergeMin_right_comm, mergeMax_right_comm]
  · rw [applyRow_sale h1, applyRow_pi h2, applyRow_pi h2, applyRow_sale h1]
  · rw [applyRow_other h2a h2b, applyRow_other h2a h2b]
  · rw [applyRow_pi h1, applyRow_sale h2, applyRow_sale h2, applyRow_pi h1]
  · rw [applyRow_pi h1, applyRow_pi h2, applyRow_pi h2, applyRow_pi h1]
    simp [mergeMin_right_comm, mergeMax_right_comm, mergeEndOpt_right_comm]
  · rw [applyRow_other h2a h2b, applyRow_other h2a h2b]
  · rw [applyRow_other h1a h1b, applyRow_other h1a h1b]
  · rw [applyRow_other h1a h1b, applyRow_other h1a h1b]
  · rw [applyRow_other h1a h1b, applyRow_other h1a h1b, applyRow_other h2a h2b]

/-- Folding a right-commutative step over a list is invariant under
permutation of the list. -/
theorem foldl_perm_of_comm {α β : Type} {f : β → α → β}
    (hc : ∀ b a1 a2, f (f b a1) a2 = f (f b a2) a1)
    {l1 l2 : List α} (h : l1.Perm l2) : ∀ b, l1.foldl f b = l2.foldl f b := by
  induction h with
  | nil => intro b; rfl
  | cons xh _ ih => intro b; simpa using ih _
  | swap u v l => intro b; simp [List.foldl_cons, hc]
  | trans _ _ ih1 ih2 => intro b; rw [ih1, ih2]

/-- Projecting the dict fold at one vendor key is a fold over that vendor's
rows only. -/
theorem foldl_aggStep_apply (x y z : Int) (rows : List RetailPromoRow)
    (m : String → Option VendorPlan) (v : String) :
    (rows.foldl (aggStep x y z) m) v =
      (rows.filter (fun r => r.vendor = v)).foldl
        (fun ow r => some (applyRow (ow.getD (emptyPlan v)) r x y z)) (m v) := by
  induction rows generalizing m with
  | nil => rfl
  | cons r rest ih =>
    by_cases hv : r.vendor = v
    · rw [List.foldl_cons, ih, List.filter_cons_of_pos (by simpa using hv)]
      rw [List.foldl_cons]
      have : aggStep x y z m r v = some (applyRow ((m v).getD (emptyPlan v)) r x y z) := by
        simp [aggStep, hv]
      rw [this]
    · rw [List.foldl_cons, ih, List.filter_cons_of_neg (by simpa using hv)]
      have hv' : ¬v = r.vendor := fun h => hv h.symm
      have : aggStep x y z m r v = m v := by
        simp [aggStep, hv']
      rw [this]

theorem aggregateMap_localize (rows : List RetailPromoRow) (x y z : Int) (v : String) :
    aggregateMap rows x y z v =
      (rows.filter (fun r => r.vendor = v)).foldl
        (fun ow r => some (applyRow (ow.getD (emptyPlan v)) r x y z)) none :=
  foldl_aggStep_apply x y z rows (fun _ => none) v

theorem foldl_optStep_some (x y z : Int) (v : String) (l : List RetailPromoRow)
    (w0 : VendorPlan) :
    l.foldl (fun ow r => some (applyRow (ow.getD (emptyPlan v)) r x y z)) (some w0) =
      some (l.foldl (stepRow x y z) w0) := by
  induction l generalizing w0 with
  | nil => rfl
  | cons r rest ih => simp [List.foldl_cons, stepRow, ih]

/-- The dict holds a plan for `v` iff some row has vendor `v`, and then the
plan is the fold of that vendor's rows from the fresh plan. -/
theorem aggregateMap_eq_some_iff (rows : List RetailPromoRow) (x y z : Int)
    (v : String) (w : VendorPlan) :
    aggregateMap rows x y z v = some w ↔
      rows.filter (fun r => r.vendor = v) ≠ [] ∧
        w = (rows.filter (fun r => r.vendor = v)).foldl (stepRow x y z) (emptyPlan v) := by
  rw [aggregateMap_localize]
  cases hf : rows.filter (fun r => r.vendor = v) with
  | nil => simp
  | cons r rest =>
    rw [List.foldl_cons]
    have h1 : (none : Option VendorPlan).getD (emptyPlan v) = emptyPlan v := rfl
    rw [h1, foldl_optStep_some, List.foldl_cons]
    constructor
    · intro h
      exact ⟨List.cons_ne_nil r rest, (Option.some_injective _ h).symm⟩
    · intro ⟨_, h⟩
      rw [h]
      rfl

theorem applyRow_vendor (w : VendorPlan) (r : RetailPromoRow) (x y z : Int) :
    (applyRow w r x y z).vendor = w.vendor := by
  rcases entry_trichotomy r with h | h | ⟨h1, h2⟩
  · rw [applyRow_sale h]
  · rw [applyRow_pi h]
  · rw [applyRow_other h1 h2]

theorem foldl_stepRow_vendor (x y z : Int) (l : List RetailPromoRow) (w0 : VendorPlan) :
    (l.foldl (stepRow x y z) w0).vendor = w0.vendor := by
  induction l generalizing w0 with
  | nil => rfl
  | cons r rest ih => rw [List.foldl_cons, ih, stepRow, applyRow_vendor]

theorem aggregateMap_vendor {rows : List RetailPromoRow} {x y z : Int}
    {v : String} {w : VendorPlan} (h : aggregateMap rows x y z v = some w) :
    w.vendor = v := by
  obtain ⟨-, hw⟩ := (aggregateMap_eq_some_iff rows x y z v w).1 h
  rw [hw, foldl_stepRow_vendor]
  rfl

/-- Membership in the aggregation output list, reduced to the dict model. -/
theorem mem_aggregate_iff (rows : List RetailPromoRow) (x y z : Int) (w : VendorPlan) :
    w ∈ aggregate_by_vendor rows x y z ↔
      ∃ v ∈ vendorOrder rows, aggregateMap rows x y z v = some w := by
  simp [aggregate_by_vendor, List.mem_filterMap]

/-- Provenance of `pi_real_end` through the per-vendor fold: any value it
holds came in through a price-increase row that itself carried that end
date. -/
theorem foldl_pi_real_end (x y z : Int) (l : List RetailPromoRow) :
    ∀ (w0 : VendorPlan) (e : Day),
      (l.foldl (stepRow x y z) w0).pi_real_end = some e →
      w0.pi_real_end = some e ∨
        ∃ r ∈ l, normalize r.entry_type = "price increase" ∧ r.end_date = some e := by
  induction l with
  | nil => intro w0 e h; exact Or.inl h
  | cons r rest ih =>
    intro w0 e h
    rw [List.foldl_cons] at h
    rcases ih _ e h with h0 | ⟨r', hr', ht', he'⟩
    · rcases entry_trichotomy r with hs | hp | ⟨h1, h2⟩
      · rw [stepRow, applyRow_sale hs] at h0
        exact Or.inl h0
      · rw [stepRow, applyRow_pi hp] at h0
        have h0' : mergeEndOpt w0.pi_real_end r.end_date = some e := h0
        cases hre : r.end_date with
        | none => rw [hre] at h0'; exact Or.inl h0'
        | some d =>
          rw [hre] at h0'
          cases hw0 : w0.pi_real_end with
          | none =>
            rw [hw0] at h0'
            have : d = e := by simpa [mergeEndOpt, mergeMax] using h0'
            exact Or.inr ⟨r, List.mem_cons_self r rest, hp, by rw [hre, this]⟩
          | some a =>
            rw [hw0] at h0'
            have hme : max a d = e := by simpa [mergeEndOpt, mergeMax] using h0'
            rcases max_choice a d with hm | hm
            · exact Or.inl (congrArg some (hm.symm.trans hme))
            · exact Or.inr ⟨r, List.mem_cons_self r rest, hp, by rw [hre, hm.symm.trans hme]⟩
      · rw [stepRow, applyRow_other h1 h2] at h0
        exact Or.inl h0
    · exact Or.inr ⟨r', List.mem_cons_of_mem r hr', ht', he'⟩

/-- The price-increase display and real-start fields of a plan become
populated together along the fold. -/
theorem foldl_pi_sync (x y z : Int) (l : List RetailPromoRow) :
    ∀ w0 : VendorPlan, (w0.pi_display_start.isSome ↔ w0.pi_real_start.isSome) →
      ((l.foldl (stepRow x y z) w0).pi_display_start.isSome ↔
        (l.foldl (stepRow x y z) w0).pi_real_start.isSome) := by
  induction l with
  | nil => intro w0 h; exact h
  | cons r rest ih =>
    intro w0 h
    rw [List.foldl_cons]
    apply ih
    rcases entry_trichotomy r with hs | hp | ⟨h1, h2⟩
    · rw [stepRow, applyRow_sale hs]; exact h
    · rw [stepRow, applyRow_pi hp]
      cases w0.pi_display_start <;> cases w0.pi_real_start <;> simp [mergeMin]
    · rw [stepRow, applyRow_other h1 h2]; exact h

/-- `sale_real_end` is populated by every sale row and never cleared. -/
theorem foldl_sale_real_end (x y z : Int) (l : List RetailPromoRow) :
    ∀ w0 : VendorPlan,
      ((∃ r ∈ l, normalize r.entry_type = "sale") ∨ w0.sale_real_end.isSome) →
      (l.foldl (stepRow x y z) w0).sale_real_end.isSome := by
  induction l with
  | nil =>
    intro w0 h
    rcases h with ⟨r, hr, -⟩ | h
    · exact absurd hr (List.not_mem_nil r)
    · exact h
  | cons r rest ih =>
    intro w0 h
    rw [List.foldl_cons]
    rcases entry_trichotomy r with hs | hp | ⟨h1, h2⟩
    · apply ih
      right
      rw [stepRow, applyRow_sale hs]
      cases w0.sale_real_end <;> simp [mergeMax]
    · apply ih
      rcases h with ⟨r', hr', ht'⟩ | h
      · rcases List.mem_cons.1 hr' with rfl | hr''
        · rw [ht'] at hp; exact absurd hp sale_ne_pi
        · exact Or.inl ⟨r', hr'', ht'⟩
      · right; rw [stepRow, applyRow_pi hp]; exact h
    · apply ih
      rcases h with ⟨r', hr', ht'⟩ | h
      · rcases List.mem_cons.1 hr' with rfl | hr''
        · exact absurd ht' h1
        · exact Or.inl ⟨r', hr'', ht'⟩
      · right; rw [stepRow, applyRow_other h1 h2]; exact h

/-! ## Claim theorems -/

/-- **C1** (confirmed): for every promotion row and non-negative offsets
X, Y, Z, the Window Calculator returns, for a Sale row, displayStart =
startDate − X and displayEnd = endDate when present else startDate; for a
PriceIncrease row, displayStart = startDate − Y and displayEnd = endDate
when present else startDate + Z. -/
theorem C1_display_window_rule (row : RetailPromoRow) (x y z : Int)
    (_hx : 0 ≤ x) (_hy : 0 ≤ y) (_hz : 0 ≤ z) :
    (normalize row.entry_type = "sale" →
      compute_display_window row x y z =
        (row.start_date - x, row.end_date.getD row.start_date)) ∧
    (normalize row.entry_type = "price increase" →
      compute_display_window row x y z =
        (row.start_date - y,
          match row.end_date with
          | some e => e
          | none => row.start_date + z)) := by
  constructor
  · intro h
    simp [compute_display_window, h]
  · intro h
    have hns : normalize row.entry_type ≠ "sale" := by rw [h]; exact sale_ne_pi.symm
    simp [compute_display_window, h, hns]

theorem C1_display_window_rule_witness :
    compute_display_window ⟨1, "Acme", "Sale", 100, some 110⟩ 3 2 10 = (97, 110) ∧
    compute_display_window ⟨2, "Acme", "Price Increase", 50, none⟩ 3 2 10 = (48, 60) := by
  constructor
  · have h := (C1_display_window_rule ⟨1, "Acme", "Sale", 100, some 110⟩ 3 2 10
      (by decide) (by decide) (by decide)).1 (by decide)
    simpa using h
  · have h := (C1_display_window_rule ⟨2, "Acme", "Price Increase", 50, none⟩ 3 2 10
      (by decide) (by decide) (by decide)).2 (by decide)
    simpa using h

/-- **C9** (confirmed): the Window Calculator is total over entry-type
strings — any row whose normalized entry type is neither "sale" nor "price
increase" yields the degenerate window (startDate, startDate) without
error — and entry-type dispatch in the calculator and in the aggregator
loop body depends on the entry type only through case/whitespace
normalization. -/
theorem C9_entry_dispatch (row : RetailPromoRow) (t' : String) (x y z : Int) :
    (normalize row.entry_type ≠ "sale" → normalize row.entry_type ≠ "price increase" →
      compute_display_window row x y z = (row.start_date, row.start_date)) ∧
    (normalize row.entry_type = normalize t' →
      compute_display_window { row with entry_type := t' } x y z =
        compute_display_window row x y z) ∧
    (∀ w : VendorPlan, normalize row.entry_type = normalize t' →
      applyRow w { row with entry_type := t' } x y z = applyRow w row x y z) := by
  refine ⟨?_, ?_, ?_⟩
  · intro h1 h2
    simp [compute_display_window, h1, h2]
  · intro h
    simp [compute_display_window, ← h]
  · intro w h
    simp [applyRow, compute_display_window, ← h]

theorem C9_entry_dispatch_witness :
    compute_display_window ⟨1, "v", "Promo", 5, none⟩ 1 2 3 = (5, 5) ∧
    compute_display_window ⟨1, "v", "  SALE ", 7, none⟩ 1 2 3 =
      compute_display_window ⟨1, "v", "Sale", 7, none⟩ 1 2 3 ∧
    applyRow (emptyPlan "v") ⟨1, "v", " Price   INCREASE ", 7, none⟩ 1 2 3 =
      applyRow (emptyPlan "v") ⟨1, "v", "Price Increase", 7, none⟩ 1 2 3 := by
  refine ⟨?_, ?_, ?_⟩
  · exact (C9_entry_dispatch ⟨1, "v", "Promo", 5, none⟩ "x" 1 2 3).1 (by decide) (by decide)
  · exact (C9_entry_dispatch ⟨1, "v", "Sale", 7, none⟩ "  SALE " 1 2 3).2.1 (by decide)
  · exact (C9_entry_dispatch ⟨1, "v", "Price Increase", 7, none⟩ " Price   INCREASE " 1 2 3).2.2
      (emptyPlan "v") (by decide)

/-- **C3** (confirmed): aggregation is order-independent — for every offsets
and every permutation of the row list, the accumulated plan of every vendor
(display windows and real dates of both promotion types alike) is the same
as from the original order. -/
theorem C3_aggregation_perm_invariant (rows1 rows2 : List RetailPromoRow)
    (x y z : Int) (h : rows1.Perm rows2) :
    ∀ v, aggregateMap rows1 x y z v = aggregateMap rows2 x y z v := by
  intro v
  rw [aggregateMap_localize, aggregateMap_localize]
  have hc : ∀ (ow : Option VendorPlan) (r1 r2 : RetailPromoRow),
      some (applyRow ((some (applyRow (ow.getD (emptyPlan v)) r1 x y z)).getD
        (emptyPlan v)) r2 x y z) =
      some (applyRow ((some (applyRow (ow.getD (emptyPlan v)) r2 x y z)).getD
        (emptyPlan v)) r1 x y z) := by
    intro ow r1 r2
    simp [Option.getD, applyRow_comm]
  exact foldl_perm_of_comm hc (h.filter _) none

theorem C3_aggregation_perm_invariant_witness :
    aggregateMap [⟨1, "acme", "Sale", 10, some 20⟩, ⟨2, "acme", "Price Increase", 5, none⟩]
        1 2 3 "acme" =
      aggregateMap [⟨2, "acme", "Price Increase", 5, none⟩, ⟨1, "acme", "Sale", 10, some 20⟩]
        1 2 3 "acme" :=
  C3_aggregation_perm_invariant _ _ 1 2 3
    (List.Perm.swap ⟨2, "acme", "Price Increase", 5, none⟩ ⟨1, "acme", "Sale", 10, some 20⟩ [])
    "acme"

/-- **C2** (confirmed): in every aggregated plan, `pi_real_end` carries a
value only when some PriceIncrease row of that vendor carried that very
source end date — rows without an end date never populate it, and it is
never synthesized from the Z-day display fallback. -/
theorem C2_pi_real_end_provenance (rows : List RetailPromoRow) (x y z : Int)
    (w : VendorPlan) (hw : w ∈ aggregate_by_vendor rows x y z) (e : Day)
    (he : w.pi_real_end = some e) :
    ∃ r ∈ rows, r.vendor = w.vendor ∧ normalize r.entry_type = "price increase" ∧
      r.end_date = some e := by
  obtain ⟨v, hv, hm⟩ := (mem_aggregate_iff rows x y z w).1 hw
  have hvv : w.vendor = v := aggregateMap_vendor hm
  obtain ⟨hne, hwe⟩ := (aggregateMap_eq_some_iff rows x y z v w).1 hm
  rw [hwe] at he
  rcases foldl_pi_real_end x y z _ (emptyPlan v) e he with h0 | ⟨r, hr, ht, hend⟩
  · exact absurd h0 (by simp [emptyPlan])
  · have hrf := List.mem_filter.1 hr
    refine ⟨r, hrf.1, ?_, ht, hend⟩
    rw [hvv]
    exact of_decide_eq_true hrf.2

theorem C2_pi_real_end_provenance_witness :
    ∃ r ∈ [(⟨1, "acme", "Price Increase", 10, some 20⟩ : RetailPromoRow),
           ⟨2, "acme", "Price Increase", 12, none⟩],
      r.vendor = (⟨"acme", none, none, some 8, some 20, none, none, some 10, some 20⟩ :
        VendorPlan).vendor ∧
      normalize r.entry_type = "price increase" ∧ r.end_date = some 20 :=
  C2_pi_real_end_provenance
    [⟨1, "acme", "Price Increase", 10, some 20⟩, ⟨2, "acme", "Price Increase", 12, none⟩]
    1 2 3
    ⟨"acme", none, none, some 8, some 20, none, none, some 10, some 20⟩
    (by decide) 20 (by decide)

/-- **C10** (confirmed): every vendor with at least one Sale row gets a
populated `sale_real_end` in its aggregated plan; a Sale row with no end
date contributes its start date as both its display end and its real end
(the start date substitutes for the missing end). -/
theorem C10_sale_real_end_populated (rows : List RetailPromoRow) (x y z : Int)
    (w : VendorPlan) (hw : w ∈ aggregate_by_vendor rows x y z) :
    ((∃ r ∈ rows, r.vendor = w.vendor ∧ normalize r.entry_type = "sale") →
      w.sale_real_end.isSome) ∧
    (∀ r : RetailPromoRow, normalize r.entry_type = "sale" → r.end_date = none →
      (compute_display_window r x y z).2 = r.start_date ∧
      (applyRow (emptyPlan r.vendor) r x y z).sale_real_end = some r.start_date) := by
  constructor
  · rintro ⟨r, hr, hrv, hrt⟩
    obtain ⟨v, hv, hm⟩ := (mem_aggregate_iff rows x y z w).1 hw
    have hvv : w.vendor = v := aggregateMap_vendor hm
    obtain ⟨hne, hwe⟩ := (aggregateMap_eq_some_iff rows x y z v w).1 hm
    rw [hwe]
    apply foldl_sale_real_end
    left
    exact ⟨r, List.mem_filter.2 ⟨hr, decide_eq_true (hrv.trans hvv)⟩, hrt⟩
  · intro r ht hend
    constructor
    · simp [compute_display_window, ht, hend]
    · rw [applyRow_sale ht]
      simp [emptyPlan, mergeMax, hend]

theorem C10_sale_real_end_populated_witness :
    ((⟨"acme", some 9, some 10, none, none, some 10, some 10, none, none⟩ :
      VendorPlan).sale_real_end.isSome) ∧
    (applyRow (emptyPlan "acme") ⟨1, "acme", "Sale", 10, none⟩ 1 2 3).sale_real_end
      = some 10 := by
  constructor
  · exact (C10_sale_real_end_populated [⟨1, "acme", "Sale", 10, none⟩] 1 2 3
      ⟨"acme", some 9, some 10, none, none, some 10, some 10, none, none⟩
      (by decide)).1 (by decide)
  · exact ((C10_sale_real_end_populated [⟨1, "acme", "Sale", 10, none⟩] 1 2 3
      ⟨"acme", some 9, some 10, none, none, some 10, some 10, none, none⟩ (by decide)).2
      ⟨1, "acme", "Sale", 10, none⟩ (by decide) (by decide)).2

/-! ## Payload lemmas -/

theorem sale_payload_eq {w : VendorPlan} {today : Day} {rs re : Day}
    (hse : sale_should_exist w today = true) (h1 : w.sale_real_start = some rs)
    (h2 : w.sale_real_end = some re) (pid : String) :
    sale_payload w today pid =
      [build_date_metafield pid MF_NAMESPACE MF_SALE_START rs,
       build_date_metafield pid MF_NAMESPACE MF_SALE_END re] := by
  unfold sale_payload
  rw [hse, h1, h2]

theorem sale_payload_eq_nil {w : VendorPlan} {today : Day}
    (hse : sale_should_exist w today = false) (pid : String) :
    sale_payload w today pid = [] := by
  unfold sale_payload
  rw [hse]

theorem sale_payload_keys {w : VendorPlan} {today : Day} {pid : String} {mf : Metafield}
    (h : mf ∈ sale_payload w today pid) :
    mf.key = MF_SALE_START ∨ mf.key = MF_SALE_END := by
  unfold sale_payload at h
  split at h
  · rcases List.mem_cons.1 h with rfl | h
    · exact Or.inl rfl
    · rcases List.mem_cons.1 h with rfl | h
      · exact Or.inr rfl
      · exact absurd h (List.not_mem_nil mf)
  · exact absurd h (List.not_mem_nil mf)

theorem sale_payload_values {w : VendorPlan} {today : Day} {pid : String} {mf : Metafield}
    {rs re : Day} (h1 : w.sale_real_start = some rs) (h2 : w.sale_real_end = some re)
    (h : mf ∈ sale_payload w today pid) :
    (mf.key = MF_SALE_START → mf.value = rs) ∧ (mf.key = MF_SALE_END → mf.value = re) := by
  unfold sale_payload at h
  split at h
  · next rs' re' heq he1 he2 =>
    rw [h1] at he1
    rw [h2] at he2
    cases Option.some_injective _ he1
    cases Option.some_injective _ he2
    rcases List.mem_cons.1 h with rfl | h
    · exact ⟨fun _ => rfl, fun hk => absurd hk
        (by simp [build_date_metafield, MF_SALE_START, MF_SALE_END])⟩
    · rcases List.mem_cons.1 h with rfl | h
      · exact ⟨fun hk => absurd hk
          (by simp [build_date_metafield, MF_SALE_START, MF_SALE_END]), fun _ => rfl⟩
      · exact absurd h (List.not_mem_nil mf)
  · exact absurd h (List.not_mem_nil mf)

theorem pi_payload_eq_none {w : VendorPlan} {today : Day} {ps : Day}
    (hpe : pi_should_exist w today = true) (h1 : w.pi_real_start = some ps)
    (h2 : w.pi_real_end = none) (pid : String) :
    pi_payload w today pid = [build_date_metafield pid MF_NAMESPACE MF_PI_START ps] := by
  unfold pi_payload
  rw [hpe, h1, h2]

theorem pi_payload_eq_some {w : VendorPlan} {today : Day} {ps pe : Day}
    (hpe : pi_should_exist w today = true) (h1 : w.pi_real_start = some ps)
    (h2 : w.pi_real_end = some pe) (pid : String) :
    pi_payload w today pid =
      [build_date_metafield pid MF_NAMESPACE MF_PI_START ps,
       build_date_metafield pid MF_NAMESPACE MF_PI_END pe] := by
  unfold pi_payload
  rw [hpe, h1, h2]

theorem pi_payload_keys {w : VendorPlan} {today : Day} {pid : String} {mf : Metafield}
    (h : mf ∈ pi_payload w today pid) :
    mf.key = MF_PI_START ∨ mf.key = MF_PI_END := by
  unfold pi_payload at h
  split at h
  · rcases List.mem_cons.1 h with rfl | h
    · exact Or.inl rfl
    · split at h
      · rcases List.mem_cons.1 h with rfl | h
        · exact Or.inr rfl
        · exact absurd h (List.not_mem_nil mf)
      · exact absurd h (List.not_mem_nil mf)
  · exact absurd h (List.not_mem_nil mf)

theorem pi_payload_values {w : VendorPlan} {today : Day} {pid : String} {mf : Metafield}
    {ps : Day} (h1 : w.pi_real_start = some ps) (h : mf ∈ pi_payload w today pid) :
    (mf.key = MF_PI_START → mf.value = ps) ∧
    (∀ pe, w.pi_real_end = some pe → mf.key = MF_PI_END → mf.value = pe) := by
  unfold pi_payload at h
  split at h
  · next ps' heq he1 =>
    rw [h1] at he1
    cases Option.some_injective _ he1
    rcases List.mem_cons.1 h with rfl | h
    · exact ⟨fun _ => rfl, fun pe hpe hk => absurd hk
        (by simp [build_date_metafield, MF_PI_START, MF_PI_END])⟩
    · split at h
      · next pe' he2 =>
        rcases List.mem_cons.1 h with rfl | h
        · refine ⟨fun hk => absurd hk
            (by simp [build_date_metafield, MF_PI_START, MF_PI_END]), fun pe hpe _ => ?_⟩
          rw [he2] at hpe
          cases Option.some_injective _ hpe
          rfl
        · exact absurd h (List.not_mem_nil mf)
      · exact absurd h (List.not_mem_nil mf)
  · exact absurd h (List.not_mem_nil mf)

theorem pi_should_exist_displays {w : VendorPlan} {today : Day}
    (h : pi_should_exist w today = true) :
    w.pi_display_start.isSome ∧ w.pi_display_end.isSome := by
  unfold pi_should_exist at h
  split at h
  · next a b h1 h2 => rw [h1, h2]; exact ⟨rfl, rfl⟩
  · exact absurd h (by simp)


/-- **C4** (confirmed): for each promotion type, shouldExist holds exactly
when both display dates are present and displayStart ≤ today ≤ displayEnd;
and whenever shouldExist holds with the real start (and, for Sale, the real
end) present, the per-product write payload carries the REAL dates under
that type's keys — never the display dates. -/
theorem C4_should_exist_real_dates (w : VendorPlan) (today : Day) (pid : String) :
    (sale_should_exist w today = true ↔
      ∃ a b, w.sale_display_start = some a ∧ w.sale_display_end = some b ∧
        a ≤ today ∧ today ≤ b) ∧
    (pi_should_exist w today = true ↔
      ∃ a b, w.pi_display_start = some a ∧ w.pi_display_end = some b ∧
        a ≤ today ∧ today ≤ b) ∧
    (∀ rs re, sale_should_exist w today = true → w.sale_real_start = some rs →
      w.sale_real_end = some re →
      build_date_metafield pid MF_NAMESPACE MF_SALE_START rs ∈ product_payload w today pid ∧
      build_date_metafield pid MF_NAMESPACE MF_SALE_END re ∈ product_payload w today pid ∧
      ∀ mf ∈ product_payload w today pid,
        (mf.key = MF_SALE_START → mf.value = rs) ∧ (mf.key = MF_SALE_END → mf.value = re)) ∧
    (∀ ps, pi_should_exist w today = true → w.pi_real_start = some ps →
      build_date_metafield pid MF_NAMESPACE MF_PI_START ps ∈ product_payload w today pid ∧
      (∀ mf ∈ product_payload w today pid, mf.key = MF_PI_START → mf.value = ps) ∧
      ∀ pe, w.pi_real_end = some pe →
        build_date_metafield pid MF_NAMESPACE MF_PI_END pe ∈ product_payload w today pid ∧
        ∀ mf ∈ product_payload w today pid, mf.key = MF_PI_END → mf.value = pe) := by
  refine ⟨?_, ?_, ?_, ?_⟩
  · unfold sale_should_exist
    cases w.sale_display_start <;> cases w.sale_display_end <;> simp
  · unfold pi_should_exist
    cases w.pi_display_start <;> cases w.pi_display_end <;> simp
  · intro rs re hse h1 h2
    have hpl : product_payload w today pid =
        build_date_metafield pid MF_NAMESPACE MF_SALE_START rs ::
          build_date_metafield pid MF_NAMESPACE MF_SALE_END re ::
            pi_payload w today pid := by
      rw [product_payload, sale_payload_eq hse h1 h2]
      rfl
    refine ⟨by rw [hpl]; exact List.mem_cons_self _ _,
      by rw [hpl]; exact List.mem_cons_of_mem _ (List.mem_cons_self _ _), ?_⟩
    intro mf hmf
    rcases List.mem_append.1 hmf with hs | hp
    · exact sale_payload_values h1 h2 hs
    · rcases pi_payload_keys hp with hk | hk
      · exact ⟨fun hk2 => absurd (hk.symm.trans hk2) (by decide),
          fun hk2 => absurd (hk.symm.trans hk2) (by decide)⟩
      · exact ⟨fun hk2 => absurd (hk.symm.trans hk2) (by decide),
          fun hk2 => absurd (hk.symm.trans hk2) (by decide)⟩
  · intro ps hpe h1
    have hstart : build_date_metafield pid MF_NAMESPACE MF_PI_START ps ∈
        pi_payload w today pid := by
      cases h2 : w.pi_real_end with
      | none => rw [pi_payload_eq_none hpe h1 h2]; exact List.mem_cons_self _ _
      | some pe => rw [pi_payload_eq_some hpe h1 h2]; exact List.mem_cons_self _ _
    refine ⟨List.mem_append_right _ hstart, ?_, ?_⟩
    · intro mf hmf hk
      rcases List.mem_append.1 hmf with hs | hp
      · rcases sale_payload_keys hs with hk' | hk' <;>
          exact absurd (hk'.symm.trans hk) (by decide)
      · exact (pi_payload_values h1 hp).1 hk
    · intro pe h2
      refine ⟨List.mem_append_right _
        (by rw [pi_payload_eq_some hpe h1 h2]
            exact List.mem_cons_of_mem _ (List.mem_cons_self _ _)), ?_⟩
      intro mf hmf hk
      rcases List.mem_append.1 hmf with hs | hp
      · rcases sale_payload_keys hs with hk' | hk' <;>
          exact absurd (hk'.symm.trans hk) (by decide)
      · exact (pi_payload_values h1 hp).2 pe h2 hk

theorem C4_should_exist_real_dates_witness :
    build_date_metafield "p" MF_NAMESPACE MF_SALE_START 7 ∈
      product_payload ⟨"v", some 4, some 17, none, none, some 7, some 17, none, none⟩ 5 "p" ∧
    build_date_metafield "p" MF_NAMESPACE MF_SALE_END 17 ∈
      product_payload ⟨"v", some 4, some 17, none, none, some 7, some 17, none, none⟩ 5 "p" := by
  refine ⟨?_, ?_⟩
  · exact ((C4_should_exist_real_dates
      ⟨"v", some 4, some 17, none, none, some 7, some 17, none, none⟩ 5 "p").2.2.1
      7 17 (by decide) rfl rfl).1
  · exact ((C4_should_exist_real_dates
      ⟨"v", some 4, some 17, none, none, some 7, some 17, none, none⟩ 5 "p").2.2.1
      7 17 (by decide) rfl rfl).2.1


/-- **C5** (confirmed): for every plan produced by aggregation and every day
on which the PriceIncrease window holds, the write payload contains the PI
start field; it contains the PI end field exactly when the plan's
`pi_real_end` is present; and a single open-ended PriceIncrease row yields a
payload holding only the PI start field. -/
theorem C5_pi_payload_fields (rows : List RetailPromoRow) (x y z : Int)
    (w : VendorPlan) (today : Day) (pid : String)
    (hw : w ∈ aggregate_by_vendor rows x y z)
    (hp : pi_should_exist w today = true) :
    (∃ ps, w.pi_real_start = some ps ∧
      build_date_metafield pid MF_NAMESPACE MF_PI_START ps ∈ product_payload w today pid) ∧
    ((∃ mf ∈ product_payload w today pid, mf.key = MF_PI_END) ↔ w.pi_real_end.isSome) ∧
    (∀ r : RetailPromoRow, normalize r.entry_type = "price increase" → r.end_date = none →
      aggregateMap [r] x y z r.vendor = some w →
      product_payload w today pid =
        [build_date_metafield pid MF_NAMESPACE MF_PI_START r.start_date]) := by
  have hsync : w.pi_display_start.isSome ↔ w.pi_real_start.isSome := by
    obtain ⟨v, hv, hm⟩ := (mem_aggregate_iff rows x y z w).1 hw
    obtain ⟨hne, hwe⟩ := (aggregateMap_eq_some_iff rows x y z v w).1 hm
    rw [hwe]
    exact foldl_pi_sync x y z _ (emptyPlan v) (by simp [emptyPlan])
  obtain ⟨ps, hps⟩ := Option.isSome_iff_exists.1
    (hsync.1 (pi_should_exist_displays hp).1)
  have hstart : build_date_metafield pid MF_NAMESPACE MF_PI_START ps ∈
      pi_payload w today pid := by
    cases h2 : w.pi_real_end with
    | none => rw [pi_payload_eq_none hp hps h2]; exact List.mem_cons_self _ _
    | some pe => rw [pi_payload_eq_some hp hps h2]; exact List.mem_cons_self _ _
  refine ⟨⟨ps, hps, List.mem_append_right _ hstart⟩, ?_, ?_⟩
  · constructor
    · rintro ⟨mf, hmf, hk⟩
      cases h2 : w.pi_real_end with
      | some pe => rfl
      | none =>
        exfalso
        rcases List.mem_append.1 hmf with hs | hpi
        · rcases sale_payload_keys hs with hk' | hk' <;>
            exact absurd (hk'.symm.trans hk) (by decide)
        · rw [pi_payload_eq_none hp hps h2] at hpi
          rcases List.mem_cons.1 hpi with rfl | hpi
          · exact absurd hk (by simp [build_date_metafield, MF_PI_START, MF_PI_END])
          · exact absurd hpi (List.not_mem_nil mf)
    · intro h2
      obtain ⟨pe, hpe⟩ := Option.isSome_iff_exists.1 h2
      refine ⟨build_date_metafield pid MF_NAMESPACE MF_PI_END pe, ?_, rfl⟩
      apply List.mem_append_right
      rw [pi_payload_eq_some hp hps hpe]
      exact List.mem_cons_of_mem _ (List.mem_cons_self _ _)
  · intro r ht hend hagg
    obtain ⟨-, hwe⟩ := (aggregateMap_eq_some_iff [r] x y z r.vendor w).1 hagg
    have hfil : [r].filter (fun r' => r'.vendor = r.vendor) = [r] := by simp
    rw [hfil] at hwe
    have hw' : w = applyRow (emptyPlan r.vendor) r x y z := hwe
    have hwpi : w = { emptyPlan r.vendor with
        pi_display_start := mergeMin none (compute_display_window r x y z).1
        pi_display_end := mergeMax none (compute_display_window r x y z).2
        pi_real_start := mergeMin none r.start_date
        pi_real_end := mergeEndOpt none r.end_date } := by
      rw [hw', applyRow_pi ht]
      rfl
    have hse : sale_should_exist w today = false := by
      rw [hwpi]
      rfl
    have hrs : w.pi_real_start = some r.start_date := by
      rw [hwpi]
      rfl
    have hre : w.pi_real_end = none := by
      rw [hwpi]
      show mergeEndOpt none r.end_date = none
      rw [hend]
      rfl
    rw [product_payload, sale_payload_eq_nil hse, pi_payload_eq_none hp hrs hre]
    rfl

theorem C5_pi_payload_fields_witness :
    product_payload ⟨"v", none, none, some 2, some 14, none, none, some 4, none⟩ 5 "p" =
      [build_date_metafield "p" MF_NAMESPACE MF_PI_START 4] :=
  (C5_pi_payload_fields [⟨1, "v", "Price Increase", 4, none⟩] 1 2 10
    ⟨"v", none, none, some 2, some 14, none, none, some 4, none⟩ 5 "p"
    (by decide) (by decide)).2.2
    ⟨1, "v", "Price Increase", 4, none⟩ (by decide) (by decide) (by decide)

/-- **C6** (confirmed): whenever a promotion type's window does not contain
today, both of that type's keys are marked for deletion — the marking never
consults the target's current fields — and executing the deletions is a
no-op (not an error) on every key whose field does not exist. -/
theorem C6_delete_marking (w : VendorPlan) (today : Day) :
    (sale_should_exist w today = false →
      MF_SALE_START ∈ keys_to_delete w today ∧ MF_SALE_END ∈ keys_to_delete w today) ∧
    (pi_should_exist w today = false →
      MF_PI_START ∈ keys_to_delete w today ∧ MF_PI_END ∈ keys_to_delete w today) ∧
    (∀ (idMap : String → Option String) (k : String) (ks : List String), idMap k = none →
      performDeletes idMap (k :: ks) = performDeletes idMap ks) ∧
    (∀ ks : List String, performDeletes (fun _ => none) ks = []) := by
  refine ⟨?_, ?_, ?_, ?_⟩
  · intro h
    unfold keys_to_delete
    rw [h]
    simp
  · intro h
    unfold keys_to_delete
    rw [h]
    simp
  · intro idMap k ks h
    have hstep : performDeletes idMap (k :: ks) =
        match idMap k with
        | some mid => mid :: performDeletes idMap ks
        | none => performDeletes idMap ks := rfl
    rw [hstep, h]
  · intro ks
    induction ks with
    | nil => rfl
    | cons k ks ih => rw [show performDeletes (fun _ => none) (k :: ks) =
        performDeletes (fun _ => none) ks from rfl, ih]

theorem C6_delete_marking_witness :
    (MF_SALE_START ∈ keys_to_delete (emptyPlan "v") 0 ∧
      MF_SALE_END ∈ keys_to_delete (emptyPlan "v") 0) ∧
    performDeletes (fun _ => none) (keys_to_delete (emptyPlan "v") 0) = [] :=
  ⟨(C6_delete_marking (emptyPlan "v") 0).1 (by decide),
   (C6_delete_marking (emptyPlan "v") 0).2.2.2 (keys_to_delete (emptyPlan "v") 0)⟩

/-- **C8** counterexample: a fetched result set whose first row carries an
unparseable start-date string is processed without any error — the bad row
is silently skipped and the remaining rows are still ingested, so the run
does not abort. -/
theorem C8_fetch_not_fatal_counterexample :
    to_date_only (some (.vstr "garbage".data)) = none ∧
    fetch_postprocess
      [⟨1, some "Bad", some "Sale", some (.vstr "garbage".data), none⟩,
       ⟨2, some "Acme", some "Sale", some (.vstr "2024-02-07".data), none⟩] =
      [⟨2, "Acme", "Sale", ⟨2024, 2, 7⟩, none⟩] := by
  exact ⟨by decide, by decide⟩

/-- **C8** (corrected): reading the promotion rows is NOT fatal on an
unparseable date — a row whose start date fails to parse is silently
skipped and processing continues with the remaining rows, and a row whose
end date fails to parse is kept with an absent end date. -/
theorem C8_fetch_skips_unparseable :
    (∀ (r : RawRow) (rest : List RawRow), to_date_only r.Date_of_Start = none →
      fetch_postprocess (r :: rest) = fetch_postprocess rest) ∧
    (∀ (r : RawRow) (rest : List RawRow) (sd : CalDate),
      to_date_only r.Date_of_Start = some sd →
      pyStripStr (r.Vendor.getD "") ≠ "" → pyStripStr (r.EntryType.getD "") ≠ "" →
      fetch_postprocess (r :: rest) =
        ⟨r.ID, pyStripStr (r.Vendor.getD ""), pyStripStr (r.EntryType.getD ""), sd,
          to_date_only r.Date_of_End⟩ :: fetch_postprocess rest) := by
  have hstep : ∀ (r : RawRow) (rest : List RawRow),
      fetch_postprocess (r :: rest) =
        match to_date_only r.Date_of_Start with
        | none => fetch_postprocess rest
        | some sd =>
          if pyStripStr (r.Vendor.getD "") = "" ∨ pyStripStr (r.EntryType.getD "") = "" then
            fetch_postprocess rest
          else ⟨r.ID, pyStripStr (r.Vendor.getD ""), pyStripStr (r.EntryType.getD ""), sd,
            to_date_only r.Date_of_End⟩ :: fetch_postprocess rest :=
    fun r rest => rfl
  constructor
  · intro r rest h
    rw [hstep, h]
  · intro r rest sd h hv he
    rw [hstep, h]
    exact if_neg (not_or.2 ⟨hv, he⟩)

theorem C8_fetch_skips_unparseable_witness :
    fetch_postprocess [⟨1, some "Bad", some "Sale", some (.vstr "garbage".data), none⟩] = [] :=
  (C8_fetch_skips_unparseable.1
    ⟨1, some "Bad", some "Sale", some (.vstr "garbage".data), none⟩ [] (by decide)).trans rfl

/-! ## Lemmas for the `parse_mm_dd` claim -/

theorem mkDate?_some {y m d : Int} {dt : CalDate} (h : mkDate? y m d = some dt) :
    dt = ⟨y, m, d⟩ ∧ 1 ≤ m ∧ m ≤ 12 ∧ 1 ≤ d ∧ d ≤ 31 := by
  unfold mkDate? at h
  split at h
  · next hc =>
    cases Option.some_injective _ h
    obtain ⟨h1, h2, h3, h4, h5, h6⟩ := hc
    refine ⟨rfl, h3, h4, h5, le_trans h6 ?_⟩
    unfold days_in_month
    split_ifs <;> omega
  · cases h

theorem mem_stripLeft {c : Char} {cs : List Char} (h : c ∈ cs)
    (hs : pyIsSpace c = false) : c ∈ stripLeft cs := by
  induction cs with
  | nil => cases h
  | cons a t ih =>
    by_cases ha : pyIsSpace a
    · have he : stripLeft (a :: t) = stripLeft t := by
        simp [stripLeft, List.dropWhile_cons, ha]
      rw [he]
      rcases List.mem_cons.1 h with rfl | h
      · rw [ha] at hs; cases hs
      · exact ih h
    · have he : stripLeft (a :: t) = a :: t := by
        simp [stripLeft, List.dropWhile_cons, ha]
      rw [he]
      exact h

theorem mem_pyStrip {c : Char} {cs : List Char} (h : c ∈ cs)
    (hs : pyIsSpace c = false) : c ∈ pyStrip cs := by
  unfold pyStrip
  rw [List.mem_reverse]
  apply mem_stripLeft _ hs
  rw [List.mem_reverse]
  exact mem_stripLeft h hs

theorem digitsToNat_all_digits {l : List Char} :
    ∀ {acc n : Nat}, digitsToNat acc l = some n → ∀ c ∈ l, c.isDigit = true := by
  induction l with
  | nil => intro acc n _ c hc; cases hc
  | cons a t ih =>
    intro acc n h c hc
    unfold digitsToNat at h
    by_cases ha : a.isDigit
    · rw [if_pos ha] at h
      rcases List.mem_cons.1 hc with rfl | hc
      · exact ha
      · exact ih h c hc
    · rw [if_neg ha] at h
      cases h

/-- `int(...)` fails on any string containing a character that is neither a
digit, a sign, nor whitespace. -/
theorem pyInt?_eq_none {c : Char} {p : List Char} (hmem : c ∈ p)
    (h1 : c.isDigit = false) (h2 : c ≠ '-') (h3 : c ≠ '+')
    (h4 : pyIsSpace c = false) : pyInt? p = none := by
  cases hres : pyInt? p with
  | none => rfl
  | some n =>
    exfalso
    have hc : c ∈ pyStrip p := mem_pyStrip hmem h4
    unfold pyInt? at hres
    split at hres
    · next rest heq =>
      rw [heq] at hc
      split at hres
      · cases hres
      · rcases Option.map_eq_some'.1 hres with ⟨nn, hd, -⟩
        rcases List.mem_cons.1 hc with rfl | hc
        · exact h2 rfl
        · exact absurd (digitsToNat_all_digits hd c hc) (by rw [h1]; decide)
    · next rest heq =>
      rw [heq] at hc
      split at hres
      · cases hres
      · rcases Option.map_eq_some'.1 hres with ⟨nn, hd, -⟩
        rcases List.mem_cons.1 hc with rfl | hc
        · exact h3 rfl
        · exact absurd (digitsToNat_all_digits hd c hc) (by rw [h1]; decide)
    · split at hres
      · cases hres
      · rcases Option.map_eq_some'.1 hres with ⟨nn, hd, -⟩
        exact absurd (digitsToNat_all_digits hd c hc) (by rw [h1]; decide)



theorem splitChar_cons_of (sep b : Char) {rest p : List Char}
    {ps : List (List Char)} (hs : splitChar sep rest = p :: ps) :
    splitChar sep (b :: rest) =
      if (b == sep) = true then [] :: p :: ps else (b :: p) :: ps := by
  unfold splitChar
  rw [hs]

theorem splitChar_ne_nil (sep : Char) (t : List Char) : splitChar sep t ≠ [] := by
  induction t with
  | nil => simp [splitChar]
  | cons a t ih =>
    rcases hs : splitChar sep t with _ | ⟨p, ps⟩
    · exact absurd hs ih
    · rw [splitChar_cons_of sep a hs]
      by_cases hc : (a == sep) = true
      · rw [if_pos hc]; simp
      · rw [if_neg hc]; simp

/-- Every character of the input other than the separator survives inside
some piece of the split. -/
theorem mem_splitChar_of_mem {a sep : Char} {t : List Char} (h : a ∈ t)
    (hne : a ≠ sep) : ∃ p ∈ splitChar sep t, a ∈ p := by
  induction t with
  | nil => cases h
  | cons b rest ih =>
    rcases hs : splitChar sep rest with _ | ⟨p, ps⟩
    · exact absurd hs (splitChar_ne_nil sep rest)
    · rw [splitChar_cons_of sep b hs]
      rcases List.mem_cons.1 h with rfl | hmem
      · have hbs : ¬(a == sep) = true := by simp [hne]
        rw [if_neg hbs]
        exact ⟨a :: p, List.mem_cons_self _ _, List.mem_cons_self _ _⟩
      · obtain ⟨q, hq, haq⟩ := ih hmem
        rw [hs] at hq
        by_cases hb : (b == sep) = true
        · rw [if_pos hb]
          exact ⟨q, List.mem_cons_of_mem _ hq, haq⟩
        · rw [if_neg hb]
          rcases List.mem_cons.1 hq with rfl | hq
          · exact ⟨b :: q, List.mem_cons_self _ _, List.mem_cons_of_mem _ haq⟩
          · exact ⟨q, List.mem_cons_of_mem _ hq, haq⟩

/-- A two-part split cannot convert when some piece carries a stray
non-digit character such as `.` or `/`. -/
theorem parseDatePair_none_of_mem {c sep : Char} {t p0 p1 : List Char} (year : Int)
    (hmem : c ∈ t) (hne : c ≠ sep) (hsp : splitChar sep t = [p0, p1])
    (h1 : c.isDigit = false) (h2 : c ≠ '-') (h3 : c ≠ '+')
    (h4 : pyIsSpace c = false) :
    parseDatePair year p0 p1 = none := by
  obtain ⟨p, hp, hcp⟩ := mem_splitChar_of_mem hmem hne
  rw [hsp] at hp
  unfold parseDatePair
  rcases List.mem_cons.1 hp with rfl | hp
  · rw [pyInt?_eq_none hcp h1 h2 h3 h4]
    rfl
  · rcases List.mem_cons.1 hp with rfl | hp
    · rw [pyInt?_eq_none hcp h1 h2 h3 h4]
      cases pyInt? p0 <;> rfl
    · exact absurd hp (List.not_mem_nil p)

theorem dot_facts : ('.' : Char).isDigit = false ∧ ('.' : Char) ≠ '-' ∧
    ('.' : Char) ≠ '+' ∧ pyIsSpace '.' = false := by decide

theorem slash_facts : ('/' : Char).isDigit = false ∧ ('/' : Char) ≠ '-' ∧
    ('/' : Char) ≠ '+' ∧ pyIsSpace '/' = false := by decide

/-- After a failed 2-way split on `.`, the remaining separators can never
produce a convertible pair: the dot survives inside one of the parts. -/
theorem trySeps_tail_none_of_dot {t : List Char} (year : Int) (hdot : '.' ∈ t) :
    trySeps year t ['/', '-'] = none := by
  obtain ⟨hd1, hd2, hd3, hd4⟩ := dot_facts
  unfold trySeps
  by_cases hsl : '/' ∈ t
  · rw [if_pos hsl]
    rcases hsp : splitChar '/' t with _ | ⟨p0, _ | ⟨p1, _ | ⟨p2, ps⟩⟩⟩
    · exact absurd hsp (splitChar_ne_nil _ _)
    · unfold trySeps
      by_cases hmi : '-' ∈ t
      · rw [if_pos hmi]
        rcases hsp2 : splitChar '-' t with _ | ⟨q0, _ | ⟨q1, _ | ⟨q2, qs⟩⟩⟩
        · exact absurd hsp2 (splitChar_ne_nil _ _)
        · rfl
        · dsimp only
          rw [parseDatePair_none_of_mem year hdot (by decide) hsp2 hd1 hd2 hd3 hd4]
          rfl
        · rfl
      · rw [if_neg hmi]
        rfl
    · dsimp only
      rw [parseDatePair_none_of_mem year hdot (by decide) hsp hd1 hd2 hd3 hd4]
      rfl
    · unfold trySeps
      by_cases hmi : '-' ∈ t
      · rw [if_pos hmi]
        rcases hsp2 : splitChar '-' t with _ | ⟨q0, _ | ⟨q1, _ | ⟨q2, qs⟩⟩⟩
        · exact absurd hsp2 (splitChar_ne_nil _ _)
        · rfl
        · dsimp only
          rw [parseDatePair_none_of_mem year hdot (by decide) hsp2 hd1 hd2 hd3 hd4]
          rfl
        · rfl
      · rw [if_neg hmi]
        rfl
  · rw [if_neg hsl]
    unfold trySeps
    by_cases hmi : '-' ∈ t
    · rw [if_pos hmi]
      rcases hsp2 : splitChar '-' t with _ | ⟨q0, _ | ⟨q1, _ | ⟨q2, qs⟩⟩⟩
      · exact absurd hsp2 (splitChar_ne_nil _ _)
      · rfl
      · dsimp only
        rw [parseDatePair_none_of_mem year hdot (by decide) hsp2 hd1 hd2 hd3 hd4]
        rfl
      · rfl
    · rw [if_neg hmi]
      rfl

/-- Likewise for a stray `/` with the `-` separator. -/
theorem trySeps_tail_none_of_slash {t : List Char} (year : Int) (hsl : '/' ∈ t) :
    trySeps year t ['-'] = none := by
  obtain ⟨hs1, hs2, hs3, hs4⟩ := slash_facts
  unfold trySeps
  by_cases hmi : '-' ∈ t
  · rw [if_pos hmi]
    rcases hsp2 : splitChar '-' t with _ | ⟨q0, _ | ⟨q1, _ | ⟨q2, qs⟩⟩⟩
    · exact absurd hsp2 (splitChar_ne_nil _ _)
    · rfl
    · dsimp only
      rw [parseDatePair_none_of_mem year hsl (by decide) hsp2 hs1 hs2 hs3 hs4]
      rfl
    · rfl
  · rw [if_neg hmi]
    rfl



theorem firstPresentSep_dot {t : List Char} (h : '.' ∈ t) :
    firstPresentSep t = some '.' := by
  unfold firstPresentSep
  rw [List.find?_cons_of_pos _ (by simpa using h)]

theorem firstPresentSep_slash {t : List Char} (hd : '.' ∉ t) (h : '/' ∈ t) :
    firstPresentSep t = some '/' := by
  unfold firstPresentSep
  rw [List.find?_cons_of_neg _ (by simpa using hd), List.find?_cons_of_pos _ (by simpa using h)]

theorem firstPresentSep_dash {t : List Char} (hd : '.' ∉ t) (hs : '/' ∉ t) (h : '-' ∈ t) :
    firstPresentSep t = some '-' := by
  unfold firstPresentSep
  rw [List.find?_cons_of_neg _ (by simpa using hd), List.find?_cons_of_neg _ (by simpa using hs),
    List.find?_cons_of_pos _ (by simpa using h)]

theorem firstPresentSep_none {t : List Char} (hd : '.' ∉ t) (hs : '/' ∉ t) (hm : '-' ∉ t) :
    firstPresentSep t = none := by
  unfold firstPresentSep
  rw [List.find?_cons_of_neg _ (by simpa using hd), List.find?_cons_of_neg _ (by simpa using hs),
    List.find?_cons_of_neg _ (by simpa using hm)]
  rfl

theorem parse_mdInput (year m d : Int)
    (hm : pyInt? (Int.repr m).data = some m)
    (hd : pyInt? (Int.repr d).data = some d)
    (hsplit : splitChar '.' (mdInput m d) = [(Int.repr m).data, (Int.repr d).data])
    (hstrip : pyStrip (mdInput m d) = mdInput m d)
    (hne : mdInput m d ≠ [])
    (hshape : shape10 (mdInput m d) = false)
    (hdot : '.' ∈ mdInput m d) :
    parse_mm_dd (mdInput m d) year = Option.map isoChars (mkDate? year m d) := by
  unfold parse_mm_dd
  dsimp only
  rw [hstrip, if_neg hne, if_neg (by simp [hshape])]
  unfold trySeps
  rw [if_pos hdot, hsplit]
  dsimp only
  unfold parseDatePair
  rw [hm, hd]
  rfl



/-- **C7** counterexample: `"aaaa-aa-aa"` is returned unchanged by the Date
Normalizer although it does not match the 10-character ISO calendar pattern
(digits in the date positions), is nonempty, and splits on its only present
separator into three parts — so, as stated, the claim would demand a
malformed-date error here, yet no error is raised. -/
theorem C7_pattern_counterexample :
    parse_mm_dd "aaaa-aa-aa".data 2024 = some ("aaaa-aa-aa".data) ∧
    claimIsoCalendarPattern "aaaa-aa-aa".data = false ∧
    "aaaa-aa-aa".data ≠ [] ∧
    (splitChar '-' "aaaa-aa-aa".data).length ≠ 2 := by
  exact ⟨by decide, by decide, by decide, by decide⟩

/-- **C7** (corrected): the Date Normalizer returns any input whose stripped
form has length 10 with hyphens at positions 4 and 7 unchanged (the
implemented pass-through shape — no digit validation); for every valid
month/day pair it converts the `month.day` shorthand to the ISO
serialization of that calendar date with the given year; and it raises a
malformed-date error exactly when the stripped input is empty, or is not of
the pass-through shape and (no separator occurs, or the first present
separator splits it into a number of parts other than two, or the two parts
do not convert to a valid calendar date). -/
theorem C7_parse_mm_dd_spec (s : List Char) (year : Int) :
    (shape10 (pyStrip s) = true → parse_mm_dd s year = some (pyStrip s)) ∧
    (∀ (m d : Int) (dt : CalDate), mkDate? year m d = some dt →
      parse_mm_dd (mdInput m d) year = some (isoChars dt)) ∧
    (parse_mm_dd s year = none ↔ malformedCond s year) := by
  refine ⟨?_, ?_, ?_⟩
  · intro h
    unfold parse_mm_dd
    dsimp only
    have hne : pyStrip s ≠ [] := by
      intro he
      rw [he] at h
      exact absurd h (by decide)
    rw [if_neg hne, if_pos h]
  · intro m d dt h
    obtain ⟨rfl, hm1, hm2, hd1, hd2⟩ := mkDate?_some h
    interval_cases m <;> interval_cases d <;>
      (rw [parse_mdInput year _ _ (by decide) (by decide) (by decide) (by decide)
        (by decide) (by decide) (by decide), h]; rfl)
  · unfold parse_mm_dd malformedCond
    dsimp only
    by_cases h0 : pyStrip s = []
    · rw [if_pos h0]
      simp [h0]
    · rw [if_neg h0]
      by_cases h1 : shape10 (pyStrip s) = true
      · rw [if_pos h1]
        simp [h0, h1]
      · have h1' : shape10 (pyStrip s) = false := by
          rcases Bool.eq_false_or_eq_true (shape10 (pyStrip s)) with hb | hb
          · exact absurd hb h1
          · exact hb
        rw [if_neg h1]
        by_cases hdot : '.' ∈ pyStrip s
        · rw [firstPresentSep_dot hdot]
          dsimp only
          unfold trySeps
          rw [if_pos hdot]
          rcases hsp : splitChar '.' (pyStrip s) with _ | ⟨p0, _ | ⟨p1, _ | ⟨p2, ps⟩⟩⟩
          · exact absurd hsp (splitChar_ne_nil _ _)
          · dsimp only
            rw [trySeps_tail_none_of_dot year hdot]
            simp [h0, h1']
          · dsimp only
            simp [h0, h1', Option.map_eq_none']
          · dsimp only
            rw [trySeps_tail_none_of_dot year hdot]
            simp [h0, h1']
        · by_cases hsl : '/' ∈ pyStrip s
          · rw [firstPresentSep_slash hdot hsl]
            dsimp only
            unfold trySeps
            rw [if_neg hdot]
            unfold trySeps
            rw [if_pos hsl]
            rcases hsp : splitChar '/' (pyStrip s) with _ | ⟨p0, _ | ⟨p1, _ | ⟨p2, ps⟩⟩⟩
            · exact absurd hsp (splitChar_ne_nil _ _)
            · dsimp only
              rw [trySeps_tail_none_of_slash year hsl]
              simp [h0, h1']
            · dsimp only
              simp [h0, h1', Option.map_eq_none']
            · dsimp only
              rw [trySeps_tail_none_of_slash year hsl]
              simp [h0, h1']
          · by_cases hmi : '-' ∈ pyStrip s
            · rw [firstPresentSep_dash hdot hsl hmi]
              dsimp only
              unfold trySeps
              rw [if_neg hdot]
              unfold trySeps
              rw [if_neg hsl]
              unfold trySeps
              rw [if_pos hmi]
              rcases hsp : splitChar '-' (pyStrip s) with _ | ⟨p0, _ | ⟨p1, _ | ⟨p2, ps⟩⟩⟩
              · exact absurd hsp (splitChar_ne_nil _ _)
              · dsimp only
                simp [trySeps, h0, h1']
              · dsimp only
                simp [h0, h1', Option.map_eq_none']
              · dsimp only
                simp [trySeps, h0, h1']
            · rw [firstPresentSep_none hdot hsl hmi]
              dsimp only
              unfold trySeps
              rw [if_neg hdot]
              unfold trySeps
              rw [if_neg hsl]
              unfold trySeps
              rw [if_neg hmi]
              simp [trySeps, h0, h1']

theorem C7_parse_mm_dd_spec_witness :
    parse_mm_dd "2024-02-05".data 2030 = some ("2024-02-05".data) ∧
    parse_mm_dd (mdInput 2 5) 2026 = some (isoChars ⟨2026, 2, 5⟩) ∧
    malformedCond "1.2.3".data 2023 := by
  refine ⟨?_, ?_, ?_⟩
  · exact (C7_parse_mm_dd_spec "2024-02-05".data 2030).1 (by decide)
  · exact (C7_parse_mm_dd_spec [] 2026).2.1 2 5 ⟨2026, 2, 5⟩ (by decide)
  · exact (C7_parse_mm_dd_spec "1.2.3".data 2023).2.2.mp (by decide)

end Retail
